import Mathlib

/-!
# pg_comparator: `jenkins.c`

A shallow embedding of the checksum functions of `jenkins.c` and a
verification of their specification.

Conventions of the embedding:

* `uint32_t` values are natural numbers below `2 ^ 32`; every C operation
  that can leave that range is followed by an explicit `% UINT32_MOD`.
* `size_t` and `uint64_t` are 64 bits wide (`% UINT64_MOD`).
* `const unsigned char *data` is an `Option (List Byte)`: `none` is the
  `NULL` pointer, `some buf` points at the first of `buf.length` readable
  bytes.  Reading `key[i]` is `buf[i]?`; a read outside the buffer makes the
  whole call `none`.
* every function returns, next to its value, the list of the indices it
  read from the buffer, in the order in which it read them.
-/

namespace Jenkins

/-- One `unsigned char`. -/
abbrev Byte := Fin 256

/-- Number of values of a `uint32_t`. -/
def UINT32_MOD : Nat := 4294967296

/-- Number of values of a `size_t` / `uint64_t`. -/
def UINT64_MOD : Nat := 18446744073709551616

def PN_32_1 : Nat := 433494437
def PN_32_2 : Nat := 780291637
def PN_32_3 : Nat := 1073676287
def PN_32_4 : Nat := 1873012681

/-- Body of the `for` loop of `jenkins_one_at_a_time_hash`, for the byte
`b = key[i]`:
```
hash += key[i] ^ len;
hash += (hash << 10);
hash ^= (hash >> 6);
```
`key[i] ^ len` and the first sum are computed in `size_t`, then stored in
the `uint32_t hash`. -/
def mix_byte (len hash b : Nat) : Nat :=
  let hash := ((hash + (b ^^^ len)) % UINT64_MOD) % UINT32_MOD
  let hash := (hash + (hash <<< 10) % UINT32_MOD) % UINT32_MOD
  hash ^^^ (hash >>> 6)

/-- The three statements after the loop:
```
hash += (hash << 3);
hash ^= (hash >> 11) + len;
hash += (hash << 15);
```
`(hash >> 11) + len` is a `size_t` sum; the XOR is stored in the
`uint32_t hash`. -/
def finalize (len hash : Nat) : Nat :=
  let hash := (hash + (hash <<< 3) % UINT32_MOD) % UINT32_MOD
  let hash := (hash ^^^ (((hash >>> 11) + len) % UINT64_MOD)) % UINT32_MOD
  (hash + (hash <<< 15) % UINT32_MOD) % UINT32_MOD

/-- The loop `for (i = 0; i < len; i++)`, with `k = len - i` iterations left
to run from index `i`.  `reads` collects the indices read so far. -/
def hash_loop (key : List Byte) (len : Nat) :
    Nat → Nat → Nat → List Nat → Option (Nat × List Nat)
  | 0, _, hash, reads => some (hash, reads)
  | k + 1, i, hash, reads =>
    match key[i]? with
    | none => none
    | some b => hash_loop key len k (i + 1) (mix_byte len hash b.val) (reads ++ [i])

/-- `static uint32_t jenkins_one_at_a_time_hash(uint32_t hash, const unsigned char *key, size_t len)`:
the hash value and the indices of `key` that were read. -/
def jenkins_one_at_a_time_hash (hash : Nat) (key : List Byte) (len : Nat) :
    Option (Nat × List Nat) :=
  match hash_loop key len len 0 hash [] with
  | none => none
  | some (hash, reads) => some (finalize len hash, reads)

/-- Conversion `(int16_t) x`: the low 16 bits read in two's complement. -/
def to_int16 (x : Nat) : Int :=
  if x % 65536 < 32768 then ((x % 65536 : Nat) : Int) else ((x % 65536 : Nat) : Int) - 65536

/-- Conversion `(int32_t) x`: the low 32 bits read in two's complement. -/
def to_int32 (x : Nat) : Int :=
  if x % 4294967296 < 2147483648 then ((x % 4294967296 : Nat) : Int)
  else ((x % 4294967296 : Nat) : Int) - 4294967296

/-- Conversion `(int64_t) x`: the low 64 bits read in two's complement. -/
def to_int64 (x : Nat) : Int :=
  if x % 18446744073709551616 < 9223372036854775808 then
    ((x % 18446744073709551616 : Nat) : Int)
  else ((x % 18446744073709551616 : Nat) : Int) - 18446744073709551616

/-- `static int16_t checksum_int2(const unsigned char *data, size_t size)`:
```
uint32_t h = 0; // default if NULL
if (data) h = jenkins_one_at_a_time_hash(PN_32_1, data, size);
return (int16_t) ((h>>16)^h);
``` -/
def checksum_int2 (data : Option (List Byte)) (size : Nat) : Option (Int × List Nat) :=
  let r : Option (Nat × List Nat) :=
    match data with
    | none => some (0, [])
    | some key => jenkins_one_at_a_time_hash PN_32_1 key size
  match r with
  | none => none
  | some (h, reads) => some (to_int16 ((h >>> 16) ^^^ h), reads)

/-- `static int32_t checksum_int4(const unsigned char *data, size_t size)`:
```
uint32_t h = 0; // default if NULL
if (data) h = jenkins_one_at_a_time_hash(PN_32_2, data, size);
return (int32_t) h;
``` -/
def checksum_int4 (data : Option (List Byte)) (size : Nat) : Option (Int × List Nat) :=
  let r : Option (Nat × List Nat) :=
    match data with
    | none => some (0, [])
    | some key => jenkins_one_at_a_time_hash PN_32_2 key size
  match r with
  | none => none
  | some (h, reads) => some (to_int32 h, reads)

/-- `static int64_t checksum_int8(const unsigned char *data, size_t size)`:
```
uint64_t h1 = 0, h2 = 0; // default if NULL
if (data) {
  h1 = jenkins_one_at_a_time_hash(PN_32_3, data, size);
  h2 = jenkins_one_at_a_time_hash(h1 ^ PN_32_4, data, size);
}
return (int64_t) ((h1<<32)|h2);
```
`h1 ^ PN_32_4` is a `uint64_t` converted to the `uint32_t` parameter;
`h1<<32` is a `uint64_t` shift. -/
def checksum_int8 (data : Option (List Byte)) (size : Nat) : Option (Int × List Nat) :=
  let r : Option (Nat × Nat × List Nat) :=
    match data with
    | none => some (0, 0, [])
    | some key =>
      match jenkins_one_at_a_time_hash PN_32_3 key size with
      | none => none
      | some (h1, reads1) =>
        match jenkins_one_at_a_time_hash ((h1 ^^^ PN_32_4) % UINT32_MOD) key size with
        | none => none
        | some (h2, reads2) => some (h1, h2, reads1 ++ reads2)
  match r with
  | none => none
  | some (h1, h2, reads) => some (to_int64 (((h1 <<< 32) % UINT64_MOD) ||| h2), reads)

/-- The ASCII string `'16667'`. -/
def str_16667 : List Byte := [0x31, 0x36, 0x36, 0x36, 0x37]

/-- The ASCII string `'53827'`. -/
def str_53827 : List Byte := [0x35, 0x33, 0x38, 0x32, 0x37]

/-- A two-byte sequence that `checksum_int2` does not tell from its reversal. -/
def rev_pair_2 : List Byte := [35, 175]

/-- A four-byte sequence that `checksum_int4` does not tell from its reversal. -/
def rev_pair_4 : List Byte := [48, 125, 42, 52]

/-- A ten-byte sequence that `checksum_int8` does not tell from its reversal. -/
def rev_pair_8 : List Byte := [147, 88, 24, 7, 0, 59, 7, 24, 88, 147]

/-- The value a call returned, without the trace of its reads. -/
def value {α : Type} (r : Option (α × List Nat)) : Option α := r.map Prod.fst

/-- The indices a call read from its buffer, in order. -/
def reads {α : Type} (r : Option (α × List Nat)) : Option (List Nat) := r.map Prod.snd

/-- The loop step as the specification words it: `a = (h + (b XOR n)) mod 2^32`,
`c = (a * 1025) mod 2^32`, result `c XOR (c div 64)`. -/
def spec_step (n h b : Nat) : Nat :=
  let a := (h + (b ^^^ n)) % 2 ^ 32
  let c := (a * 1025) % 2 ^ 32
  c ^^^ (c / 64)

/-- The finalization as the specification words it: `d = (h * 9) mod 2^32`,
`e = d XOR ((d div 2048 + n) mod 2^32)`, result `(e * 32769) mod 2^32`. -/
def spec_final (n h : Nat) : Nat :=
  let d := (h * 9) % 2 ^ 32
  let e := d ^^^ ((d / 2048 + n) % 2 ^ 32)
  (e * 32769) % 2 ^ 32

/-- First statement after the loop, `hash += (hash << 3);`. -/
def final_add3 (hash : Nat) : Nat :=
  (hash + (hash <<< 3) % UINT32_MOD) % UINT32_MOD

/-- Second statement after the loop, `hash ^= (hash >> 11) + len;`. -/
def final_xor11 (len hash : Nat) : Nat :=
  (hash ^^^ (((hash >>> 11) + len) % UINT64_MOD)) % UINT32_MOD

/-- Third statement after the loop, `hash += (hash << 15);`. -/
def final_add15 (hash : Nat) : Nat :=
  (hash + (hash <<< 15) % UINT32_MOD) % UINT32_MOD

/-- A buffer with embedded zero bytes. -/
def zero_bytes : List Byte := [0, 7, 0]

/-! ## Arithmetic of the 32-bit operations -/

theorem xor_mod_two_pow (a b k : Nat) :
    (a ^^^ b) % 2 ^ k = (a % 2 ^ k) ^^^ (b % 2 ^ k) := by
  apply Nat.eq_of_testBit_eq
  intro i
  simp only [Nat.testBit_mod_two_pow, Nat.testBit_xor]
  by_cases h : i < k <;> simp [h]

theorem xor_lt_uint32 {a b : Nat} (ha : a < UINT32_MOD) (hb : b < UINT32_MOD) :
    a ^^^ b < UINT32_MOD := by
  have h : UINT32_MOD = 2 ^ 32 := by decide
  rw [h] at ha hb ⊢
  exact Nat.xor_lt_two_pow ha hb

theorem mix_byte_eq_spec (len hash b : Nat) : mix_byte len hash b = spec_step len hash b := by
  simp only [mix_byte, spec_step, UINT32_MOD, UINT64_MOD, Nat.shiftLeft_eq,
    Nat.shiftRight_eq_div_pow]
  have h1 : (hash + (b ^^^ len)) % 18446744073709551616 % 4294967296
      = (hash + (b ^^^ len)) % 2 ^ 32 := by omega
  rw [h1]
  generalize (hash + (b ^^^ len)) % 2 ^ 32 = a
  have h2 : (a + a * 2 ^ 10 % 4294967296) % 4294967296 = a * 1025 % 2 ^ 32 := by omega
  rw [h2]

theorem finalize_eq_spec (len hash : Nat) : finalize len hash = spec_final len hash := by
  simp only [finalize, spec_final, UINT32_MOD, UINT64_MOD, Nat.shiftLeft_eq,
    Nat.shiftRight_eq_div_pow]
  have h1 : (hash + hash * 2 ^ 3 % 4294967296) % 4294967296 = hash * 9 % 2 ^ 32 := by omega
  rw [h1]
  generalize hd : hash * 9 % 2 ^ 32 = d
  have hdlt : d < 2 ^ 32 := by rw [← hd]; exact Nat.mod_lt _ (by norm_num)
  have h2 : (d ^^^ (d / 2 ^ 11 + len) % 18446744073709551616) % 4294967296
      = d ^^^ ((d / 2048 + len) % 2 ^ 32) := by
    have e : (4294967296 : Nat) = 2 ^ 32 := by norm_num
    rw [e, xor_mod_two_pow, Nat.mod_eq_of_lt hdlt]
    congr 1
    omega
  rw [h2]
  generalize d ^^^ ((d / 2048 + len) % 2 ^ 32) = e
  omega

theorem finalize_lt (len hash : Nat) : finalize len hash < UINT32_MOD := by
  unfold finalize
  exact Nat.mod_lt _ (by decide)

/-! ## The loop -/

/-- With `i + k` bytes available the loop reads `key[i], ..., key[i+k-1]` and
folds `mix_byte` over them. -/
theorem hash_loop_eq (key : List Byte) (len : Nat) :
    ∀ (k i hash : Nat) (rd : List Nat), i + k ≤ key.length →
      hash_loop key len k i hash rd
        = some (((key.drop i).take k).foldl (fun h b => mix_byte len h b.val) hash,
                rd ++ List.range' i k) := by
  intro k
  induction k with
  | zero => intro i hash rd _; simp [hash_loop]
  | succ k ih =>
    intro i hash rd hlen
    have hi : i < key.length := by omega
    have hd : key.drop i = key[i] :: key.drop (i + 1) := List.drop_eq_getElem_cons hi
    rw [hash_loop, List.getElem?_eq_getElem hi]
    simp only
    rw [ih (i + 1) _ _ (by omega), hd, List.take_succ_cons, List.foldl_cons, List.range'_succ,
      List.append_assoc, List.singleton_append]

/-- The mixer on a buffer that holds at least `len` bytes. -/
theorem jenkins_eq (hash : Nat) (key : List Byte) (len : Nat) (hlen : len ≤ key.length) :
    jenkins_one_at_a_time_hash hash key len
      = some (finalize len ((key.take len).foldl (fun h b => mix_byte len h b.val) hash),
              List.range len) := by
  unfold jenkins_one_at_a_time_hash
  rw [hash_loop_eq key len len 0 hash [] (by omega)]
  simp [List.range_eq_range']

theorem jenkins_value_lt (hash : Nat) (key : List Byte) (len h : Nat)
    (hv : value (jenkins_one_at_a_time_hash hash key len) = some h) : h < UINT32_MOD := by
  unfold jenkins_one_at_a_time_hash value at hv
  cases hl : hash_loop key len len 0 hash [] with
  | none => simp [hl] at hv
  | some p =>
    simp [hl] at hv
    rw [← hv]
    exact finalize_lt _ _

/-- The checksum functions on a present buffer that holds at least `size`
bytes, in terms of the mixer's value. -/
theorem checksum_int2_eq (buf : List Byte) (size : Nat) (hs : size ≤ buf.length) :
    checksum_int2 (some buf) size
      = some (to_int16 ((finalize size ((buf.take size).foldl
            (fun h b => mix_byte size h b.val) PN_32_1) >>> 16) ^^^
          finalize size ((buf.take size).foldl (fun h b => mix_byte size h b.val) PN_32_1)),
        List.range size) := by
  simp only [checksum_int2, jenkins_eq _ buf size hs]

theorem checksum_int4_eq (buf : List Byte) (size : Nat) (hs : size ≤ buf.length) :
    checksum_int4 (some buf) size
      = some (to_int32 (finalize size ((buf.take size).foldl
            (fun h b => mix_byte size h b.val) PN_32_2)),
        List.range size) := by
  simp only [checksum_int4, jenkins_eq _ buf size hs]

theorem checksum_int8_eq (buf : List Byte) (size : Nat) (hs : size ≤ buf.length) :
    checksum_int8 (some buf) size
      = some (to_int64 (((finalize size ((buf.take size).foldl
            (fun h b => mix_byte size h b.val) PN_32_3) <<< 32) % UINT64_MOD) |||
          finalize size ((buf.take size).foldl (fun h b => mix_byte size h b.val)
            ((finalize size ((buf.take size).foldl
              (fun h b => mix_byte size h b.val) PN_32_3) ^^^ PN_32_4) % UINT32_MOD))),
        List.range size ++ List.range size) := by
  simp only [checksum_int8, jenkins_eq _ buf size hs]

/-- Two buffers that agree on the indices below `size` have the same first
`size` bytes. -/
theorem take_eq_of_agree (buf1 buf2 : List Byte) (size : Nat)
    (h1 : size ≤ buf1.length) (h2 : size ≤ buf2.length)
    (hagree : ∀ i, i < size → buf1[i]? = buf2[i]?) :
    buf1.take size = buf2.take size := by
  apply List.ext_getElem?
  intro i
  by_cases hi : i < size
  · rw [List.getElem?_take_of_lt hi, List.getElem?_take_of_lt hi]
    exact hagree i hi
  · have l1 : (buf1.take size).length ≤ i := by rw [List.length_take]; omega
    have l2 : (buf2.take size).length ≤ i := by rw [List.length_take]; omega
    rw [List.getElem?_eq_none l1, List.getElem?_eq_none l2]

/-- Packing two 32-bit halves: `((h1 << 32) | h2)` in 64 bits. -/
theorem pack_eq (h1 h2 : Nat) (l1 : h1 < UINT32_MOD) (l2 : h2 < UINT32_MOD) :
    ((h1 <<< 32) % UINT64_MOD) ||| h2 = h1 * 2 ^ 32 + h2 := by
  have e32 : UINT32_MOD = 2 ^ 32 := by decide
  rw [e32] at l1 l2
  have hlt : h1 * 2 ^ 32 < UINT64_MOD := by
    simp only [UINT64_MOD]
    omega
  rw [Nat.shiftLeft_eq, Nat.mod_eq_of_lt hlt, Nat.mul_comm h1, Nat.mul_add_lt_is_or l2]

/-- Folding the halves: the low 16 bits of `(h >> 16) ^ h`. -/
theorem fold16_eq (h : Nat) (lh : h < UINT32_MOD) :
    ((h >>> 16) ^^^ h) % 65536 = (h / 2 ^ 16) ^^^ (h % 2 ^ 16) := by
  have e : (65536 : Nat) = 2 ^ 16 := by norm_num
  simp only [UINT32_MOD] at lh
  rw [e, xor_mod_two_pow, Nat.shiftRight_eq_div_pow]
  congr 1
  omega

/-! ## The claims -/

/-- C1: for each of `checksum_int2`, `checksum_int4` and `checksum_int8`, a
`NULL` data pointer gives the value 0 for every `size`, and no byte is read
(the mixer, which reads `size` bytes, is not run). -/
theorem C1_null_is_zero (size : Nat) :
    checksum_int2 none size = some (0, []) ∧
    checksum_int4 none size = some (0, []) ∧
    checksum_int8 none size = some (0, []) :=
  ⟨rfl, rfl, rfl⟩

/-- C2 (evaluation of the code): `checksum_int8` on a present buffer with
size 0 reads nothing and returns -4574248572204083670, the signed reading of
`3229942056 * 2^32 + 3010467370`; it does not return 0. -/
theorem C2_checksum_int8_empty (buf : List Byte) :
    checksum_int8 (some buf) 0 = some (-4574248572204083670, []) ∧
    value (checksum_int8 (some buf) 0) ≠ some 0 := by
  have h : checksum_int8 (some buf) 0 = some (-4574248572204083670, []) := rfl
  rw [h]
  exact ⟨rfl, by decide⟩

/-- C3 (evaluation of the code): `checksum_int4` returns -9551787 for `'16667'`
and 2104479295 for `'53827'`, two different values.  The two strings do
collide under the mixer when its seed is 0 instead of `PN_32_2`. -/
theorem C3_checksum_int4_16667_53827 :
    value (checksum_int4 (some str_16667) 5) = some (-9551787) ∧
    value (checksum_int4 (some str_53827) 5) = some 2104479295 ∧
    value (checksum_int4 (some str_16667) 5) ≠ value (checksum_int4 (some str_53827) 5) ∧
    value (jenkins_one_at_a_time_hash 0 str_16667 5)
      = value (jenkins_one_at_a_time_hash 0 str_53827 5) :=
  ⟨by decide, by decide, by decide, by decide⟩

/-- C4: for every seed `s` and byte sequence `data` of length `n`,
`jenkins_one_at_a_time_hash(s, data, n)` returns `F (foldl step s data)` with
the specification's `step` (each byte XORed with the total length `n`) and `F`
(the length added to the shifted value before the XOR), all modulo `2^32`. -/
theorem C4_mixer_is_spec_fold (s : Nat) (data : List Byte) :
    value (jenkins_one_at_a_time_hash s data data.length)
      = some (spec_final data.length
          (data.foldl (fun h b => spec_step data.length h b.val) s)) := by
  rw [jenkins_eq s data data.length (le_refl _)]
  simp only [value, Option.map_some', List.take_length, finalize_eq_spec]
  have hstep : (fun (h : Nat) (b : Byte) => mix_byte data.length h b.val)
      = (fun h b => spec_step data.length h b.val) := by
    funext h b
    exact mix_byte_eq_spec _ _ _
  rw [hstep]

/-- C5: for a present buffer of size `n`, `checksum_int8`, read as an unsigned
64-bit value, is `r1 * 2^32 + r2` with `r1 = mixer(1073676287, data, n)` in the
high 32 bits and `r2 = mixer(r1 XOR 1873012681, data, n)` in the low 32 bits;
the signed result is its two's-complement reading. -/
theorem C5_checksum_int8_packs (buf : List Byte) (n : Nat) (hn : n ≤ buf.length) :
    ∃ r1 r2 : Nat,
      value (jenkins_one_at_a_time_hash 1073676287 buf n) = some r1 ∧
      value (jenkins_one_at_a_time_hash (r1 ^^^ 1873012681) buf n) = some r2 ∧
      (r1 * 2 ^ 32 + r2) / 2 ^ 32 = r1 ∧ (r1 * 2 ^ 32 + r2) % 2 ^ 32 = r2 ∧
      r1 * 2 ^ 32 + r2 < 2 ^ 64 ∧
      ∃ v : Int, value (checksum_int8 (some buf) n) = some v ∧
        v % 2 ^ 64 = ((r1 * 2 ^ 32 + r2 : Nat) : Int) ∧
        v = if r1 * 2 ^ 32 + r2 < 2 ^ 63 then ((r1 * 2 ^ 32 + r2 : Nat) : Int)
            else ((r1 * 2 ^ 32 + r2 : Nat) : Int) - 2 ^ 64 := by
  have l1 := finalize_lt n ((buf.take n).foldl (fun h b => mix_byte n h b.val) PN_32_3)
  generalize hr1 : finalize n ((buf.take n).foldl (fun h b => mix_byte n h b.val) PN_32_3)
    = r1 at l1
  have hseed : (r1 ^^^ PN_32_4) % UINT32_MOD = r1 ^^^ PN_32_4 :=
    Nat.mod_eq_of_lt (xor_lt_uint32 l1 (by decide))
  have l2 := finalize_lt n
    ((buf.take n).foldl (fun h b => mix_byte n h b.val) (r1 ^^^ PN_32_4))
  generalize hr2 : finalize n
    ((buf.take n).foldl (fun h b => mix_byte n h b.val) (r1 ^^^ PN_32_4)) = r2 at l2
  have h8 := checksum_int8_eq buf n hn
  rw [hr1, hseed, hr2, pack_eq r1 r2 l1 l2] at h8
  have j1 := jenkins_eq PN_32_3 buf n hn
  have j2 := jenkins_eq (r1 ^^^ PN_32_4) buf n hn
  rw [hr1] at j1
  rw [hr2] at j2
  simp only [PN_32_3] at j1
  simp only [PN_32_4] at j2
  simp only [UINT32_MOD] at l1 l2
  refine ⟨r1, r2, by rw [j1]; rfl, by rw [j2]; rfl, by omega, by omega, by omega, ?_⟩
  refine ⟨to_int64 (r1 * 2 ^ 32 + r2), by rw [h8]; rfl, ?_, ?_⟩
  · unfold to_int64
    split <;> omega
  · unfold to_int64
    have hm : (r1 * 2 ^ 32 + r2) % 18446744073709551616 = r1 * 2 ^ 32 + r2 := by omega
    rw [hm]
    split <;> split <;> omega

/-- Witness of C5: the one-byte buffer `[7]` with size 1. -/
theorem C5_checksum_int8_packs_witness :
    ∃ r1 r2 : Nat,
      value (jenkins_one_at_a_time_hash 1073676287 [7] 1) = some r1 ∧
      value (jenkins_one_at_a_time_hash (r1 ^^^ 1873012681) [7] 1) = some r2 ∧
      (r1 * 2 ^ 32 + r2) / 2 ^ 32 = r1 ∧ (r1 * 2 ^ 32 + r2) % 2 ^ 32 = r2 ∧
      r1 * 2 ^ 32 + r2 < 2 ^ 64 ∧
      ∃ v : Int, value (checksum_int8 (some [7]) 1) = some v ∧
        v % 2 ^ 64 = ((r1 * 2 ^ 32 + r2 : Nat) : Int) ∧
        v = if r1 * 2 ^ 32 + r2 < 2 ^ 63 then ((r1 * 2 ^ 32 + r2 : Nat) : Int)
            else ((r1 * 2 ^ 32 + r2 : Nat) : Int) - 2 ^ 64 :=
  C5_checksum_int8_packs [7] 1 (by decide)

/-- C6: for a present buffer of size `n`, with `h = mixer(433494437, data, n)`,
`checksum_int2` is the signed 16-bit reading of `(h div 2^16) XOR (h mod 2^16)`:
it lies in `[-32768, 32767]` and is congruent to that XOR modulo `2^16`. -/
theorem C6_checksum_int2_folds (buf : List Byte) (n : Nat) (hn : n ≤ buf.length) :
    ∃ h : Nat, value (jenkins_one_at_a_time_hash 433494437 buf n) = some h ∧
      ∃ v : Int, value (checksum_int2 (some buf) n) = some v ∧
        -32768 ≤ v ∧ v ≤ 32767 ∧
        v % 2 ^ 16 = (((h / 2 ^ 16) ^^^ (h % 2 ^ 16) : Nat) : Int) ∧
        v = if (h / 2 ^ 16) ^^^ (h % 2 ^ 16) < 2 ^ 15
            then (((h / 2 ^ 16) ^^^ (h % 2 ^ 16) : Nat) : Int)
            else (((h / 2 ^ 16) ^^^ (h % 2 ^ 16) : Nat) : Int) - 2 ^ 16 := by
  have l := finalize_lt n ((buf.take n).foldl (fun h b => mix_byte n h b.val) PN_32_1)
  generalize hh : finalize n ((buf.take n).foldl (fun h b => mix_byte n h b.val) PN_32_1)
    = h at l
  have h2 := checksum_int2_eq buf n hn
  have j := jenkins_eq PN_32_1 buf n hn
  rw [hh] at h2 j
  simp only [PN_32_1] at j
  refine ⟨h, by rw [j]; rfl, to_int16 ((h >>> 16) ^^^ h), by rw [h2]; rfl, ?_⟩
  unfold to_int16
  rw [fold16_eq h l]
  have hx : (h / 2 ^ 16) ^^^ (h % 2 ^ 16) < 2 ^ 16 :=
    Nat.xor_lt_two_pow (by simp only [UINT32_MOD] at l; omega) (Nat.mod_lt _ (by norm_num))
  generalize (h / 2 ^ 16) ^^^ (h % 2 ^ 16) = x at hx
  refine ⟨?_, ?_, ?_, ?_⟩ <;> split <;> omega

/-- Witness of C6: the one-byte buffer `[7]` with size 1. -/
theorem C6_checksum_int2_folds_witness :
    ∃ h : Nat, value (jenkins_one_at_a_time_hash 433494437 [7] 1) = some h ∧
      ∃ v : Int, value (checksum_int2 (some [7]) 1) = some v ∧
        -32768 ≤ v ∧ v ≤ 32767 ∧
        v % 2 ^ 16 = (((h / 2 ^ 16) ^^^ (h % 2 ^ 16) : Nat) : Int) ∧
        v = if (h / 2 ^ 16) ^^^ (h % 2 ^ 16) < 2 ^ 15
            then (((h / 2 ^ 16) ^^^ (h % 2 ^ 16) : Nat) : Int)
            else (((h / 2 ^ 16) ^^^ (h % 2 ^ 16) : Nat) : Int) - 2 ^ 16 :=
  C6_checksum_int2_folds [7] 1 (by decide)

/-- C7: for a present buffer of size `n`, `checksum_int4` is the signed 32-bit
reading of `h = mixer(780291637, data, n)` with no folding: `h` when
`h < 2^31`, and `h - 2^32` otherwise. -/
theorem C7_checksum_int4_reinterprets (buf : List Byte) (n : Nat) (hn : n ≤ buf.length) :
    ∃ h : Nat, value (jenkins_one_at_a_time_hash 780291637 buf n) = some h ∧
      h < 2 ^ 32 ∧
      value (checksum_int4 (some buf) n)
        = some (if h < 2 ^ 31 then (h : Int) else (h : Int) - 2 ^ 32) := by
  have l := finalize_lt n ((buf.take n).foldl (fun h b => mix_byte n h b.val) PN_32_2)
  generalize hh : finalize n ((buf.take n).foldl (fun h b => mix_byte n h b.val) PN_32_2)
    = h at l
  have h4 := checksum_int4_eq buf n hn
  have j := jenkins_eq PN_32_2 buf n hn
  rw [hh] at h4 j
  simp only [PN_32_2] at j
  simp only [UINT32_MOD] at l
  refine ⟨h, by rw [j]; rfl, by omega, ?_⟩
  rw [h4]
  simp only [value, Option.map_some', to_int32, Option.some.injEq]
  have hm : h % 4294967296 = h := by omega
  rw [hm]
  split <;> split <;> omega

/-- Witness of C7: the one-byte buffer `[7]` with size 1. -/
theorem C7_checksum_int4_reinterprets_witness :
    ∃ h : Nat, value (jenkins_one_at_a_time_hash 780291637 [7] 1) = some h ∧
      h < 2 ^ 32 ∧
      value (checksum_int4 (some [7]) 1)
        = some (if h < 2 ^ 31 then (h : Int) else (h : Int) - 2 ^ 32) :=
  C7_checksum_int4_reinterprets [7] 1 (by decide)

/-- C8: for `checksum_int2` and `checksum_int4` the checksum of a present
buffer of size 0 is not 0 (it is -11321 and 421915978), so it differs from the
checksum of an absent buffer, whatever size is passed with the latter. -/
theorem C8_empty_is_not_null (buf : List Byte) (size : Nat) :
    value (checksum_int2 (some buf) 0) = some (-11321) ∧
    value (checksum_int4 (some buf) 0) = some 421915978 ∧
    value (checksum_int2 (some buf) 0) ≠ some 0 ∧
    value (checksum_int4 (some buf) 0) ≠ some 0 ∧
    value (checksum_int2 (some buf) 0) ≠ value (checksum_int2 none size) ∧
    value (checksum_int4 (some buf) 0) ≠ value (checksum_int4 none size) := by
  have h2 : value (checksum_int2 (some buf) 0) = some (-11321) := rfl
  have h4 : value (checksum_int4 (some buf) 0) = some 421915978 := rfl
  have n2 : value (checksum_int2 none size) = some 0 := rfl
  have n4 : value (checksum_int4 none size) = some 0 := rfl
  rw [h2, h4, n2, n4]
  exact ⟨rfl, rfl, by decide, by decide, by decide, by decide⟩

/-- C9: each of `checksum_int2`, `checksum_int4` and `checksum_int8` depends
only on the first `size` bytes and on `size`: two present buffers holding at
least `size` bytes that agree on the indices `0..size-1` give the same result,
and that result is a value (the call does not fail). -/
theorem C9_depends_on_prefix_only (buf1 buf2 : List Byte) (size : Nat)
    (h1 : size ≤ buf1.length) (h2 : size ≤ buf2.length)
    (hagree : ∀ i, i < size → buf1[i]? = buf2[i]?) :
    (∃ v, checksum_int2 (some buf1) size = some v ∧ checksum_int2 (some buf2) size = some v) ∧
    (∃ v, checksum_int4 (some buf1) size = some v ∧ checksum_int4 (some buf2) size = some v) ∧
    (∃ v, checksum_int8 (some buf1) size = some v ∧ checksum_int8 (some buf2) size = some v) := by
  have ht := take_eq_of_agree buf1 buf2 size h1 h2 hagree
  refine ⟨⟨_, checksum_int2_eq buf1 size h1, ?_⟩, ⟨_, checksum_int4_eq buf1 size h1, ?_⟩,
    ⟨_, checksum_int8_eq buf1 size h1, ?_⟩⟩
  · rw [checksum_int2_eq buf2 size h2, ht]
  · rw [checksum_int4_eq buf2 size h2, ht]
  · rw [checksum_int8_eq buf2 size h2, ht]

/-- Witness of C9: the buffers `[1, 2, 3]` and `[1, 2, 9, 9]` agree on their
first two bytes and are read with size 2. -/
theorem C9_depends_on_prefix_only_witness :
    (∃ v, checksum_int2 (some [1, 2, 3]) 2 = some v ∧
      checksum_int2 (some [1, 2, 9, 9]) 2 = some v) ∧
    (∃ v, checksum_int4 (some [1, 2, 3]) 2 = some v ∧
      checksum_int4 (some [1, 2, 9, 9]) 2 = some v) ∧
    (∃ v, checksum_int8 (some [1, 2, 3]) 2 = some v ∧
      checksum_int8 (some [1, 2, 9, 9]) 2 = some v) :=
  C9_depends_on_prefix_only [1, 2, 3] [1, 2, 9, 9] 2 (by decide) (by decide)
    (by
      intro i hi
      match i, hi with
      | 0, _ => rfl
      | 1, _ => rfl)

/-- C10 (counterexample): reversal of a non-palindromic sequence can leave the
checksum unchanged, for each of the three widths: `[35, 175]` for
`checksum_int2`, `[48, 125, 42, 52]` for `checksum_int4` and
`[147, 88, 24, 7, 0, 59, 7, 24, 88, 147]` for `checksum_int8`. -/
theorem C10_reversal_can_collide :
    (rev_pair_2 ≠ rev_pair_2.reverse ∧
      value (checksum_int2 (some rev_pair_2.reverse) 2)
        = value (checksum_int2 (some rev_pair_2) 2)) ∧
    (rev_pair_4 ≠ rev_pair_4.reverse ∧
      value (checksum_int4 (some rev_pair_4.reverse) 4)
        = value (checksum_int4 (some rev_pair_4) 4)) ∧
    (rev_pair_8 ≠ rev_pair_8.reverse ∧
      value (checksum_int8 (some rev_pair_8.reverse) 10)
        = value (checksum_int8 (some rev_pair_8) 10)) :=
  ⟨⟨by decide, by decide⟩, ⟨by decide, by decide⟩, ⟨by decide, by decide⟩⟩

/-- C10 (amended): none of the three checksums is invariant under reversal:
for each of them there is a non-palindromic byte sequence (here `[1, 2]`)
whose reversal, of the same length, has a different checksum. -/
theorem C10_not_reversal_invariant :
    (∃ x : List Byte, x ≠ x.reverse ∧
      value (checksum_int2 (some x.reverse) x.length)
        ≠ value (checksum_int2 (some x) x.length)) ∧
    (∃ x : List Byte, x ≠ x.reverse ∧
      value (checksum_int4 (some x.reverse) x.length)
        ≠ value (checksum_int4 (some x) x.length)) ∧
    (∃ x : List Byte, x ≠ x.reverse ∧
      value (checksum_int8 (some x.reverse) x.length)
        ≠ value (checksum_int8 (some x) x.length)) :=
  ⟨⟨[1, 2], by decide, by decide⟩, ⟨[1, 2], by decide, by decide⟩,
    ⟨[1, 2], by decide, by decide⟩⟩

/-- C11: the mixer and the three checksum functions never fail.  On a present
buffer that holds at least `size` bytes every index below `size` is readable,
the mixer returns a value after reading exactly the indices `0, ..., size-1`,
once each and in increasing order (`checksum_int8` runs it twice), whatever
the bytes are; on an absent buffer the checksums return without reading. -/
theorem C11_total_and_reads_in_range (hash : Nat) (buf : List Byte) (size : Nat)
    (hs : size ≤ buf.length) :
    (∀ i, i ∈ List.range size → buf[i]? ≠ none) ∧
    (∃ h, jenkins_one_at_a_time_hash hash buf size = some (h, List.range size)) ∧
    (∃ v, checksum_int2 (some buf) size = some (v, List.range size)) ∧
    (∃ v, checksum_int4 (some buf) size = some (v, List.range size)) ∧
    (∃ v, checksum_int8 (some buf) size = some (v, List.range size ++ List.range size)) ∧
    (∀ n, ∃ v2 v4 v8, checksum_int2 none n = some (v2, []) ∧
      checksum_int4 none n = some (v4, []) ∧ checksum_int8 none n = some (v8, [])) := by
  refine ⟨?_, ⟨_, jenkins_eq hash buf size hs⟩, ⟨_, checksum_int2_eq buf size hs⟩,
    ⟨_, checksum_int4_eq buf size hs⟩, ⟨_, checksum_int8_eq buf size hs⟩, ?_⟩
  · intro i hi
    have hlt : i < buf.length := by
      have := List.mem_range.mp hi
      omega
    rw [List.getElem?_eq_getElem hlt]
    exact Option.some_ne_none _
  · intro n
    exact ⟨0, 0, 0, rfl, rfl, rfl⟩

/-- Witness of C11: the buffer `[0, 7, 0]`, with embedded zero bytes, read in
full from seed 5. -/
theorem C11_total_and_reads_in_range_witness :
    (∀ i, i ∈ List.range 3 → zero_bytes[i]? ≠ none) ∧
    (∃ h, jenkins_one_at_a_time_hash 5 zero_bytes 3 = some (h, List.range 3)) ∧
    (∃ v, checksum_int2 (some zero_bytes) 3 = some (v, List.range 3)) ∧
    (∃ v, checksum_int4 (some zero_bytes) 3 = some (v, List.range 3)) ∧
    (∃ v, checksum_int8 (some zero_bytes) 3 = some (v, List.range 3 ++ List.range 3)) ∧
    (∀ n, ∃ v2 v4 v8, checksum_int2 none n = some (v2, []) ∧
      checksum_int4 none n = some (v4, []) ∧ checksum_int8 none n = some (v8, [])) :=
  C11_total_and_reads_in_range 5 zero_bytes 3 (by decide)

/-- C12: for the empty string the mixer leaves a zero seed unchanged:
`jenkins_one_at_a_time_hash(0, data, 0) = 0` for every present buffer, and
nothing is read. -/
theorem C12_zero_seed_empty_string (buf : List Byte) :
    jenkins_one_at_a_time_hash 0 buf 0 = some (0, []) ∧
    value (jenkins_one_at_a_time_hash 0 buf 0) = some 0 :=
  ⟨rfl, rfl⟩

/-- C13 (evaluation of the code): on a present buffer of size 0 the high 32
bits of `checksum_int8` are 3229942056, the mixer value for the seed
`PN_32_3`, while `checksum_int4`, read as an unsigned 32-bit value, is
421915978, the mixer value for the seed `PN_32_2`; the two differ. -/
theorem C13_high_half_is_not_checksum_int4 (buf : List Byte) :
    ∃ v8 v4 : Int,
      value (checksum_int8 (some buf) 0) = some v8 ∧
      value (checksum_int4 (some buf) 0) = some v4 ∧
      v8 % 2 ^ 64 / 2 ^ 32 = 3229942056 ∧
      v4 % 2 ^ 32 = 421915978 ∧
      v8 % 2 ^ 64 / 2 ^ 32 ≠ v4 % 2 ^ 32 ∧
      value (jenkins_one_at_a_time_hash PN_32_3 buf 0) = some 3229942056 ∧
      value (jenkins_one_at_a_time_hash PN_32_2 buf 0) = some 421915978 := by
  have h8 : checksum_int8 (some buf) 0 = some (-4574248572204083670, []) := rfl
  have h4 : checksum_int4 (some buf) 0 = some (421915978, []) := rfl
  have j3 : jenkins_one_at_a_time_hash PN_32_3 buf 0 = some (3229942056, []) := rfl
  have j2 : jenkins_one_at_a_time_hash PN_32_2 buf 0 = some (421915978, []) := rfl
  refine ⟨-4574248572204083670, 421915978, ?_, ?_, by decide, by decide, by decide, ?_, ?_⟩
  · rw [h8]; rfl
  · rw [h4]; rfl
  · rw [j3]; rfl
  · rw [j2]; rfl

/-! ## Injectivity of the individual statements -/

/-- Multiplication by a constant coprime to `2^32` is injective modulo `2^32`. -/
theorem mul_coprime_injective (c a b : Nat) (hc : Nat.gcd 4294967296 c = 1)
    (la : a < 4294967296) (lb : b < 4294967296)
    (h : a * c % 4294967296 = b * c % 4294967296) : a = b := by
  have hm : a ≡ b [MOD 4294967296] := Nat.ModEq.cancel_right_of_coprime hc h
  unfold Nat.ModEq at hm
  rwa [Nat.mod_eq_of_lt la, Nat.mod_eq_of_lt lb] at hm

/-- The map `x ↦ x ^ (x >> k)` is injective for every shift `k > 0`. -/
theorem xorshift_injective (k : Nat) (hk : 0 < k) (x y : Nat)
    (h : x ^^^ (x >>> k) = y ^^^ (y >>> k)) : x = y := by
  have hx : x < 2 ^ (x + y) :=
    Nat.lt_of_lt_of_le (Nat.lt_two_pow x) (Nat.pow_le_pow_right (by norm_num) (by omega))
  have hy : y < 2 ^ (x + y) :=
    Nat.lt_of_lt_of_le (Nat.lt_two_pow y) (Nat.pow_le_pow_right (by norm_num) (by omega))
  generalize x + y = N at hx hy
  have high : ∀ z i, z < 2 ^ N → N ≤ i → z.testBit i = false := by
    intro z i hz hi
    exact Nat.testBit_lt_two_pow (Nat.lt_of_lt_of_le hz (Nat.pow_le_pow_right (by norm_num) hi))
  have bits : ∀ m i, N - i ≤ m → x.testBit i = y.testBit i := by
    intro m
    induction m with
    | zero =>
      intro i hi
      rw [high x i hx (by omega), high y i hy (by omega)]
    | succ m ih =>
      intro i hi
      have hup := ih (k + i) (by omega)
      have hbit := congrArg (fun z => z.testBit i) h
      simp only [Nat.testBit_xor, Nat.testBit_shiftRight, hup] at hbit
      cases hxb : x.testBit i <;> cases hyb : y.testBit i <;>
        cases hc : y.testBit (k + i) <;> simp_all
  exact Nat.eq_of_testBit_eq (fun i => bits (N - i) i (le_refl _))

theorem finalize_steps (len hash : Nat) :
    finalize len hash = final_add15 (final_xor11 len (final_add3 hash)) := rfl

theorem final_add3_lt (hash : Nat) : final_add3 hash < UINT32_MOD :=
  Nat.mod_lt _ (by decide)

theorem final_xor11_lt (len hash : Nat) : final_xor11 len hash < UINT32_MOD :=
  Nat.mod_lt _ (by decide)

theorem final_add3_injective (h1 h2 : Nat) (l1 : h1 < UINT32_MOD) (l2 : h2 < UINT32_MOD)
    (h : final_add3 h1 = final_add3 h2) : h1 = h2 := by
  have e : ∀ x : Nat, (x + x * 2 ^ 3 % 4294967296) % 4294967296 = x * 9 % 4294967296 := by
    intro x; omega
  simp only [final_add3, UINT32_MOD, Nat.shiftLeft_eq] at h l1 l2
  rw [e, e] at h
  exact mul_coprime_injective 9 h1 h2 (by decide) l1 l2 h

theorem final_add15_injective (h1 h2 : Nat) (l1 : h1 < UINT32_MOD) (l2 : h2 < UINT32_MOD)
    (h : final_add15 h1 = final_add15 h2) : h1 = h2 := by
  have e : ∀ x : Nat,
      (x + x * 2 ^ 15 % 4294967296) % 4294967296 = x * 32769 % 4294967296 := by
    intro x; omega
  simp only [final_add15, UINT32_MOD, Nat.shiftLeft_eq] at h l1 l2
  rw [e, e] at h
  exact mul_coprime_injective 32769 h1 h2 (by decide) l1 l2 h

/-- With `len = 0` the second statement is `hash ^= hash >> 11`. -/
theorem final_xor11_zero (d : Nat) (ld : d < UINT32_MOD) :
    final_xor11 0 d = d ^^^ (d >>> 11) := by
  have hs : d >>> 11 < UINT32_MOD := by
    rw [Nat.shiftRight_eq_div_pow]
    simp only [UINT32_MOD] at ld ⊢
    omega
  have hm : (d >>> 11 + 0) % UINT64_MOD = d >>> 11 := by
    simp only [UINT32_MOD] at hs
    simp only [UINT64_MOD]
    omega
  unfold final_xor11
  rw [hm]
  exact Nat.mod_eq_of_lt (xor_lt_uint32 ld hs)

/-- Finalization with `len = 0` is injective on 32-bit values. -/
theorem finalize_zero_injective (s1 s2 : Nat) (l1 : s1 < UINT32_MOD) (l2 : s2 < UINT32_MOD)
    (h : finalize 0 s1 = finalize 0 s2) : s1 = s2 := by
  rw [finalize_steps, finalize_steps] at h
  have h15 := final_add15_injective _ _ (final_xor11_lt 0 _) (final_xor11_lt 0 _) h
  rw [final_xor11_zero _ (final_add3_lt s1), final_xor11_zero _ (final_add3_lt s2)] at h15
  exact final_add3_injective s1 s2 l1 l2 (xorshift_injective 11 (by norm_num) _ _ h15)

/-- An injective map of `{0, ..., M-1}` into itself reaches every element. -/
theorem surjective_below_of_injective (M : Nat) (f : Nat → Nat) (hlt : ∀ s, f s < M)
    (hinj : ∀ a b, a < M → b < M → f a = f b → a = b) (y : Nat) (ly : y < M) :
    ∃ s, s < M ∧ f s = y := by
  have hi : Function.Injective (fun s : Fin M => (⟨f s.val, hlt s.val⟩ : Fin M)) := by
    intro a b hab
    exact Fin.ext (hinj a.val b.val a.isLt b.isLt (congrArg Fin.val hab))
  obtain ⟨s, hs⟩ := Finite.surjective_of_injective hi ⟨y, ly⟩
  exact ⟨s.val, s.isLt, congrArg Fin.val hs⟩

/-- Finalization with `len = 0` reaches every 32-bit value. -/
theorem finalize_zero_surjective (y : Nat) (ly : y < UINT32_MOD) :
    ∃ s, s < UINT32_MOD ∧ finalize 0 s = y :=
  surjective_below_of_injective UINT32_MOD (finalize 0) (finalize_lt 0)
    finalize_zero_injective y ly

/-- The loop body depends on `hash` and the byte only through the 32-bit sum
`hash + (key[i] ^ len)`. -/
theorem mix_byte_congr (len hash b len2 hash2 b2 : Nat)
    (h : (hash + (b ^^^ len)) % UINT64_MOD % UINT32_MOD
      = (hash2 + (b2 ^^^ len2)) % UINT64_MOD % UINT32_MOD) :
    mix_byte len hash b = mix_byte len2 hash2 b2 := by
  simp only [mix_byte, h]

/-- The loop body is injective in `hash` on 32-bit values, for a fixed byte and
length. -/
theorem mix_byte_injective (len b h1 h2 : Nat) (l1 : h1 < UINT32_MOD) (l2 : h2 < UINT32_MOD)
    (h : mix_byte len h1 b = mix_byte len h2 b) : h1 = h2 := by
  have e : ∀ x : Nat,
      (x + x * 2 ^ 10 % 4294967296) % 4294967296 = x * 1025 % 4294967296 := by
    intro x; omega
  simp only [mix_byte] at h
  have hc := xorshift_injective 6 (by norm_num) _ _ h
  simp only [UINT32_MOD, Nat.shiftLeft_eq] at hc l1 l2
  rw [e, e] at hc
  have ha := mul_coprime_injective 1025 _ _ (by decide)
    (Nat.mod_lt _ (by norm_num)) (Nat.mod_lt _ (by norm_num)) hc
  simp only [UINT64_MOD] at ha
  generalize b ^^^ len = x at ha
  omega

/-- C14: at length 0 the mixer is injective as a function of its 32-bit seed,
and reaches every 32-bit value, so it is a bijection on 32-bit values; in
particular 0 is the only seed whose empty-input output is 0. -/
theorem C14_empty_mixer_injective (buf : List Byte) (s1 s2 : Nat)
    (l1 : s1 < 2 ^ 32) (l2 : s2 < 2 ^ 32) :
    (value (jenkins_one_at_a_time_hash s1 buf 0)
        = value (jenkins_one_at_a_time_hash s2 buf 0) → s1 = s2) ∧
    (value (jenkins_one_at_a_time_hash s1 buf 0) = some 0 → s1 = 0) ∧
    (∃ s, s < 2 ^ 32 ∧ value (jenkins_one_at_a_time_hash s buf 0) = some s1) := by
  have hv : ∀ s, value (jenkins_one_at_a_time_hash s buf 0) = some (finalize 0 s) :=
    fun _ => rfl
  have e32 : UINT32_MOD = 2 ^ 32 := by decide
  rw [← e32] at l1 l2 ⊢
  refine ⟨?_, ?_, ?_⟩
  · intro h
    rw [hv, hv] at h
    exact finalize_zero_injective s1 s2 l1 l2 (Option.some.inj h)
  · intro h
    have h0 : finalize 0 0 = 0 := by decide
    rw [hv] at h
    exact finalize_zero_injective s1 0 l1 (by decide) ((Option.some.inj h).trans h0.symm)
  · obtain ⟨s, ls, hs⟩ := finalize_zero_surjective s1 l1
    exact ⟨s, ls, by rw [hv, hs]⟩

/-- Witness of C14: the seeds 1 and 2 on the empty buffer. -/
theorem C14_empty_mixer_injective_witness :
    (1 : Nat) < 2 ^ 32 ∧ (2 : Nat) < 2 ^ 32 ∧
    ((value (jenkins_one_at_a_time_hash 1 [] 0)
        = value (jenkins_one_at_a_time_hash 2 [] 0) → (1 : Nat) = 2) ∧
    (value (jenkins_one_at_a_time_hash 1 [] 0) = some 0 → (1 : Nat) = 0) ∧
    (∃ s, s < 2 ^ 32 ∧ value (jenkins_one_at_a_time_hash s [] 0) = some 1)) :=
  ⟨by decide, by decide, C14_empty_mixer_injective [] 1 2 (by decide) (by decide)⟩

/-- C15: with length 1 the mixer is not injective in its seed.  For every byte
`b` there are two distinct 32-bit seeds with the same output on `[b]`: they
lead to the values `0x3FF800` and `0x3FF7FF` after `hash += (hash << 3)`, which
`hash ^= (hash >> 11) + len` maps to the same value when `len = 1`.  The other
statements (the loop body, `hash += (hash << 3)`, `hash += (hash << 15)`) are
injective on 32-bit values. -/
theorem C15_mixer_not_injective_with_length (b : Byte) :
    (∃ s1 s2 : Nat, s1 < 2 ^ 32 ∧ s2 < 2 ^ 32 ∧ s1 ≠ s2 ∧
      final_add3 (mix_byte 1 s1 b.val) = 0x3FF800 ∧
      final_add3 (mix_byte 1 s2 b.val) = 0x3FF7FF ∧
      ∃ h, value (jenkins_one_at_a_time_hash s1 [b] 1) = some h ∧
        value (jenkins_one_at_a_time_hash s2 [b] 1) = some h) ∧
    final_xor11 1 0x3FF800 = final_xor11 1 0x3FF7FF ∧
    (∀ len h1 h2, h1 < 2 ^ 32 → h2 < 2 ^ 32 →
      mix_byte len h1 b.val = mix_byte len h2 b.val → h1 = h2) ∧
    (∀ h1 h2, h1 < 2 ^ 32 → h2 < 2 ^ 32 → final_add3 h1 = final_add3 h2 → h1 = h2) ∧
    (∀ h1 h2, h1 < 2 ^ 32 → h2 < 2 ^ 32 → final_add15 h1 = final_add15 h2 → h1 = h2) := by
  have e32 : UINT32_MOD = 2 ^ 32 := by decide
  have hv : ∀ s, value (jenkins_one_at_a_time_hash s [b] 1)
      = some (finalize 1 (mix_byte 1 s b.val)) := fun _ => rfl
  have hx : b.val ^^^ 1 < 2 ^ 8 := Nat.xor_lt_two_pow b.isLt (by norm_num)
  have r1 : (940441600 + (1 ^^^ 1)) % UINT64_MOD % UINT32_MOD = 940441600 := by decide
  have r2 : (1249600456 + (1 ^^^ 1)) % UINT64_MOD % UINT32_MOD = 1249600456 := by decide
  have m1 : mix_byte 1 ((940441600 + 4294967296 - (b.val ^^^ 1)) % 4294967296) b.val
      = mix_byte 1 940441600 1 := by
    apply mix_byte_congr
    rw [r1]
    simp only [UINT32_MOD, UINT64_MOD]
    generalize b.val ^^^ 1 = x at hx
    omega
  have m2 : mix_byte 1 ((1249600456 + 4294967296 - (b.val ^^^ 1)) % 4294967296) b.val
      = mix_byte 1 1249600456 1 := by
    apply mix_byte_congr
    rw [r2]
    simp only [UINT32_MOD, UINT64_MOD]
    generalize b.val ^^^ 1 = x at hx
    omega
  have a1 : final_add3 (mix_byte 1 940441600 1) = 0x3FF800 := by decide
  have a2 : final_add3 (mix_byte 1 1249600456 1) = 0x3FF7FF := by decide
  have f1 : finalize 1 (mix_byte 1 940441600 1) = 4164939776 := by decide
  have f2 : finalize 1 (mix_byte 1 1249600456 1) = 4164939776 := by decide
  refine ⟨⟨(940441600 + 4294967296 - (b.val ^^^ 1)) % 4294967296,
    (1249600456 + 4294967296 - (b.val ^^^ 1)) % 4294967296, ?_, ?_, ?_, ?_, ?_,
    4164939776, ?_, ?_⟩, by decide, ?_, ?_, ?_⟩
  · exact Nat.mod_lt _ (by norm_num)
  · exact Nat.mod_lt _ (by norm_num)
  · generalize b.val ^^^ 1 = x at hx
    omega
  · rw [m1, a1]
  · rw [m2, a2]
  · rw [hv, m1, f1]
  · rw [hv, m2, f2]
  · intro len h1 h2 l1 l2 h
    rw [← e32] at l1 l2
    exact mix_byte_injective len b.val h1 h2 l1 l2 h
  · intro h1 h2 l1 l2 h
    rw [← e32] at l1 l2
    exact final_add3_injective h1 h2 l1 l2 h
  · intro h1 h2 l1 l2 h
    rw [← e32] at l1 l2
    exact final_add15_injective h1 h2 l1 l2 h

/-- Witness of C15: the byte 0, for which the seeds 940441599 and 1249600455
both give 4164939776. -/
theorem C15_mixer_not_injective_with_length_witness :
    (940441599 ≠ 1249600455 ∧
      value (jenkins_one_at_a_time_hash 940441599 [0] 1) = some 4164939776 ∧
      value (jenkins_one_at_a_time_hash 1249600455 [0] 1) = some 4164939776) ∧
    ∃ s1 s2 : Nat, s1 < 2 ^ 32 ∧ s2 < 2 ^ 32 ∧ s1 ≠ s2 ∧
      final_add3 (mix_byte 1 s1 (0 : Byte).val) = 0x3FF800 ∧
      final_add3 (mix_byte 1 s2 (0 : Byte).val) = 0x3FF7FF ∧
      ∃ h, value (jenkins_one_at_a_time_hash s1 [0] 1) = some h ∧
        value (jenkins_one_at_a_time_hash s2 [0] 1) = some h :=
  ⟨⟨by decide, by decide, by decide⟩, (C15_mixer_not_injective_with_length 0).1⟩

end Jenkins
